import Mathlib

/-!
Verification of the IBD Plexus patients-metadata pipeline.

This file gives a shallow embedding, in Lean 4, of the data model and the
operations of the pipeline: the name sanitizer, the two type-inference
variants, the wide-to-long reshaper, the compliance filter, the
patient-identifier deduplication, the batch partitioner of the ingestion
adapter, and the add-source-column step.  Machine floats of the source are
modelled with exact rationals, pandas series with Lean lists, and NA cells
with `Option`.  Theorems about these definitions settle the spec claims.
-/

namespace IBD

/-! ## Generic list helpers shared by several stages -/

/-- First-occurrence deduplication: model of `pandas.DataFrame.drop_duplicates`
with the default `keep='first'` policy.  The first occurrence of every distinct
element is kept, in order. -/
def keepFirst {α : Type} [DecidableEq α] : List α → List α
  | [] => []
  | a :: l => a :: keepFirst (l.filter (fun b => decide (b ≠ a)))
termination_by l => l.length
decreasing_by
  simp only [List.length_cons]
  exact Nat.lt_succ_of_le (List.length_filter_le _ _)

/-- Index of the first occurrence of `x` in `l` (length of `l` when absent). -/
def firstIdx {α : Type} [DecidableEq α] : List α → α → Nat
  | [], _ => 0
  | a :: l, x => if a = x then 0 else firstIdx l x + 1

theorem keepFirst_nil {α : Type} [DecidableEq α] : keepFirst ([] : List α) = [] := by
  rw [keepFirst]

theorem keepFirst_cons {α : Type} [DecidableEq α] (a : α) (l : List α) :
    keepFirst (a :: l) = a :: keepFirst (l.filter (fun b => decide (b ≠ a))) := by
  rw [keepFirst]

theorem mem_of_mem_keepFirst {α : Type} [DecidableEq α] :
    ∀ (l : List α) (x : α), x ∈ keepFirst l → x ∈ l := by
  intro l
  induction l using keepFirst.induct with
  | case1 => intro x hx; rw [keepFirst_nil] at hx; exact absurd hx (List.not_mem_nil x)
  | case2 a l ih =>
    intro x hx
    rw [keepFirst_cons] at hx
    rcases List.mem_cons.mp hx with h | h
    · exact h ▸ List.mem_cons_self a l
    · exact List.mem_cons_of_mem a (List.mem_filter.mp (ih x h)).1

theorem mem_keepFirst_of_mem {α : Type} [DecidableEq α] :
    ∀ (l : List α) (x : α), x ∈ l → x ∈ keepFirst l := by
  intro l
  induction l using keepFirst.induct with
  | case1 => intro x hx; exact absurd hx (List.not_mem_nil x)
  | case2 a l ih =>
    intro x hx
    rw [keepFirst_cons]
    by_cases hxa : x = a
    · exact hxa ▸ List.mem_cons_self a _
    · rcases List.mem_cons.mp hx with h | h
      · exact absurd h hxa
      · exact List.mem_cons_of_mem a
          (ih x (List.mem_filter.mpr ⟨h, by simpa using hxa⟩))

theorem mem_keepFirst_iff {α : Type} [DecidableEq α] (l : List α) (x : α) :
    x ∈ keepFirst l ↔ x ∈ l :=
  ⟨mem_of_mem_keepFirst l x, mem_keepFirst_of_mem l x⟩

theorem nodup_keepFirst {α : Type} [DecidableEq α] :
    ∀ l : List α, (keepFirst l).Nodup := by
  intro l
  induction l using keepFirst.induct with
  | case1 => rw [keepFirst_nil]; exact List.nodup_nil
  | case2 a l ih =>
    rw [keepFirst_cons]
    refine List.nodup_cons.mpr ⟨?_, ih⟩
    intro hmem
    have := (List.mem_filter.mp (mem_of_mem_keepFirst _ _ hmem)).2
    simp at this

theorem keepFirst_of_nodup {α : Type} [DecidableEq α] :
    ∀ l : List α, l.Nodup → keepFirst l = l := by
  intro l
  induction l using keepFirst.induct with
  | case1 => intro _; rw [keepFirst_nil]
  | case2 a l ih =>
    intro hnd
    rcases List.nodup_cons.mp hnd with ⟨hna, hndl⟩
    have hfe : l.filter (fun b => decide (b ≠ a)) = l := by
      apply List.filter_eq_self.mpr
      intro b hb
      simp only [decide_eq_true_iff]
      intro hba
      exact hna (hba ▸ hb)
    rw [hfe] at ih
    rw [keepFirst_cons, hfe, ih hndl]

theorem keepFirst_idem {α : Type} [DecidableEq α] (l : List α) :
    keepFirst (keepFirst l) = keepFirst l :=
  keepFirst_of_nodup _ (nodup_keepFirst l)

theorem firstIdx_cons {α : Type} [DecidableEq α] (a x : α) (l : List α) :
    firstIdx (a :: l) x = if a = x then 0 else firstIdx l x + 1 := rfl

/-- Filtering preserves the relative order of first occurrences. -/
theorem firstIdx_filter_lt {α : Type} [DecidableEq α] (p : α → Bool) :
    ∀ (l : List α) (b c : α), b ∈ l.filter p → c ∈ l.filter p →
      firstIdx (l.filter p) b < firstIdx (l.filter p) c → firstIdx l b < firstIdx l c := by
  intro l
  induction l with
  | nil => intro b c hb _ _; exact absurd hb (List.not_mem_nil b)
  | cons a t ih =>
    intro b c hb hc hlt
    by_cases hpa : p a
    · rw [List.filter_cons_of_pos hpa] at hb hc hlt
      by_cases hab : a = b
      · subst hab
        rw [firstIdx_cons, if_pos rfl]
        have hc0 : ¬ (a = c) := by
          intro h
          rw [firstIdx_cons, if_pos rfl, firstIdx_cons, if_pos h] at hlt
          exact Nat.lt_irrefl 0 hlt
        rw [firstIdx_cons, if_neg hc0]
        exact Nat.succ_pos _
      · by_cases hac : a = c
        · exfalso
          rw [firstIdx_cons, if_neg hab, firstIdx_cons, if_pos hac] at hlt
          exact Nat.not_succ_le_zero _ hlt
        · rw [firstIdx_cons, if_neg hab, firstIdx_cons, if_neg hac] at hlt ⊢
          have hb' : b ∈ t.filter p := by
            rcases List.mem_cons.mp hb with h | h
            · exact absurd h.symm hab
            · exact h
          have hc' : c ∈ t.filter p := by
            rcases List.mem_cons.mp hc with h | h
            · exact absurd h.symm hac
            · exact h
          exact Nat.succ_lt_succ (ih b c hb' hc' (Nat.lt_of_succ_lt_succ hlt))
    · rw [List.filter_cons_of_neg hpa] at hb hc hlt
      have hab : ¬ (a = b) := by
        intro h
        exact hpa (h ▸ (List.mem_filter.mp hb).2)
      have hac : ¬ (a = c) := by
        intro h
        exact hpa (h ▸ (List.mem_filter.mp hc).2)
      rw [firstIdx_cons, if_neg hab, firstIdx_cons, if_neg hac]
      exact Nat.succ_lt_succ (ih b c hb hc hlt)

/-- The keep-first deduplication lists elements in order of first occurrence. -/
theorem keepFirst_pairwise_firstIdx {α : Type} [DecidableEq α] :
    ∀ l : List α, (keepFirst l).Pairwise (fun x y => firstIdx l x < firstIdx l y) := by
  intro l
  induction l using keepFirst.induct with
  | case1 => rw [keepFirst_nil]; exact List.Pairwise.nil
  | case2 a l ih =>
    rw [keepFirst_cons]
    refine List.pairwise_cons.mpr ⟨?_, ?_⟩
    · intro y hy
      have hyf := mem_of_mem_keepFirst _ _ hy
      have hya : ¬ (a = y) := by
        have := (List.mem_filter.mp hyf).2
        simp only [decide_eq_true_iff] at this
        exact fun h => this h.symm
      rw [firstIdx_cons, if_pos rfl, firstIdx_cons, if_neg hya]
      exact Nat.succ_pos _
    · refine List.Pairwise.imp_of_mem ?_ ih
      intro x y hx hy hlt
      have hx' := mem_of_mem_keepFirst _ _ hx
      have hy' := mem_of_mem_keepFirst _ _ hy
      have hxa : ¬ (a = x) := by
        have := (List.mem_filter.mp hx').2
        simp only [decide_eq_true_iff] at this
        exact fun h => this h.symm
      have hya : ¬ (a = y) := by
        have := (List.mem_filter.mp hy').2
        simp only [decide_eq_true_iff] at this
        exact fun h => this h.symm
      rw [firstIdx_cons, if_neg hxa, firstIdx_cons, if_neg hya]
      exact Nat.succ_lt_succ (firstIdx_filter_lt _ l x y hx' hy' hlt)

/-! ## Name Sanitizer
Embedding of `sanitize_field_name` from
`SPARC_merged_final_all_files_SRTAINTYingestion_SRT_Compliant.py`:
lower-case the name, replace every maximal run of characters outside
`[a-z0-9_]` with a single underscore (`re.sub` with pattern
`[^a-z0-9_]+`), then strip leading and trailing underscores.
Python `str.lower` is modelled on the ASCII fragment. -/

/-- True exactly for the characters matched by the class `[a-z0-9_]`. -/
def isSanChar (c : Char) : Bool :=
  decide ((97 ≤ c.toNat ∧ c.toNat ≤ 122) ∨ (48 ≤ c.toNat ∧ c.toNat ≤ 57) ∨ c.toNat = 95)

/-- ASCII model of Python `str.lower` applied to one character. -/
def lowerChar (c : Char) : Char :=
  if 65 ≤ c.toNat ∧ c.toNat ≤ 90 then Char.ofNat (c.toNat + 32) else c

/-- Worker for `collapseRuns`; the flag records whether the previous
character was outside the class (so the current run of invalid characters
has already emitted its single underscore). -/
def collapseAux : Bool → List Char → List Char
  | _, [] => []
  | prevBad, c :: cs =>
    if isSanChar c then c :: collapseAux false cs
    else if prevBad then collapseAux true cs
    else '_' :: collapseAux true cs

/-- Model of `re.sub(r'[^a-z0-9_]+', '_', ·)`: every maximal run of
characters outside the class becomes a single underscore. -/
def collapseRuns (l : List Char) : List Char := collapseAux false l

/-- Model of Python `str.strip('_')` on a character list. -/
def stripUnders (l : List Char) : List Char :=
  ((l.dropWhile (fun c => c = '_')).reverse.dropWhile (fun c => c = '_')).reverse

/-- `sanitize_field_name`: lower-case, collapse invalid runs to `_`,
strip leading and trailing underscores. -/
def sanitize_field_name (name : String) : String :=
  String.mk (stripUnders (collapseRuns (name.data.map lowerChar)))

theorem sanChar_underscore : isSanChar '_' = true := by decide

theorem mem_collapseAux_san :
    ∀ (l : List Char) (b : Bool) (c : Char), c ∈ collapseAux b l → isSanChar c = true := by
  intro l
  induction l with
  | nil => intro b c hc; exact absurd hc (List.not_mem_nil c)
  | cons c cs ih =>
    intro b d hd
    by_cases hs : isSanChar c
    · rw [collapseAux, if_pos hs] at hd
      rcases List.mem_cons.mp hd with h | h
      · exact h ▸ hs
      · exact ih false d h
    · rw [collapseAux, if_neg hs] at hd
      by_cases hb : b
      · rw [if_pos hb] at hd
        exact ih true d hd
      · rw [if_neg hb] at hd
        rcases List.mem_cons.mp hd with h | h
        · exact h ▸ sanChar_underscore
        · exact ih true d h

theorem mem_collapseRuns_san (l : List Char) (c : Char)
    (h : c ∈ collapseRuns l) : isSanChar c = true :=
  mem_collapseAux_san l false c h

theorem collapseAux_of_san :
    ∀ l : List Char, (∀ c ∈ l, isSanChar c = true) → ∀ b : Bool, collapseAux b l = l := by
  intro l
  induction l with
  | nil => intro _ b; rfl
  | cons c cs ih =>
    intro h b
    rw [collapseAux, if_pos (h c (List.mem_cons_self c cs))]
    rw [ih (fun d hd => h d (List.mem_cons_of_mem c hd)) false]

theorem collapseRuns_of_san (l : List Char) (h : ∀ c ∈ l, isSanChar c = true) :
    collapseRuns l = l :=
  collapseAux_of_san l h false

theorem lowerChar_of_san (c : Char) (h : isSanChar c = true) : lowerChar c = c := by
  simp only [isSanChar, decide_eq_true_iff] at h
  unfold lowerChar
  rw [if_neg]
  omega

theorem head?_dropWhile_ne_underscore (l : List Char) :
    (l.dropWhile (fun c => c = '_')).head? ≠ some '_' := by
  induction l with
  | nil => simp [List.dropWhile]
  | cons a t ih =>
    by_cases ha : a = '_'
    · rw [List.dropWhile_cons_of_pos (by simpa using ha)]
      exact ih
    · rw [List.dropWhile_cons_of_neg (by simpa using ha)]
      simpa using ha

theorem getLast?_dropWhile_ne_underscore (l : List Char)
    (h : l.getLast? ≠ some '_') :
    (l.dropWhile (fun c => c = '_')).getLast? ≠ some '_' := by
  induction l with
  | nil => simp [List.dropWhile]
  | cons a t ih =>
    by_cases ha : a = '_'
    · rw [List.dropWhile_cons_of_pos (by simpa using ha)]
      cases t with
      | nil =>
        exfalso
        rw [List.getLast?_singleton] at h
        exact h (by rw [ha])
      | cons b u =>
        exact ih (by rwa [List.getLast?_cons_cons] at h)
    · rw [List.dropWhile_cons_of_neg (by simpa using ha)]
      exact h

theorem dropWhile_of_head_ne (l : List Char) (h : l.head? ≠ some '_') :
    l.dropWhile (fun c => c = '_') = l := by
  cases l with
  | nil => rfl
  | cons a t =>
    rw [List.head?_cons] at h
    have ha : ¬ (a = '_') := fun he => h (by rw [he])
    rw [List.dropWhile_cons_of_neg (by simpa using ha)]

theorem head?_stripUnders (l : List Char) : (stripUnders l).head? ≠ some '_' := by
  unfold stripUnders
  rw [List.head?_reverse]
  apply getLast?_dropWhile_ne_underscore
  rw [List.getLast?_reverse]
  exact head?_dropWhile_ne_underscore l

theorem getLast?_stripUnders (l : List Char) : (stripUnders l).getLast? ≠ some '_' := by
  unfold stripUnders
  rw [List.getLast?_reverse]
  exact head?_dropWhile_ne_underscore _

theorem mem_stripUnders (l : List Char) (c : Char) (h : c ∈ stripUnders l) : c ∈ l := by
  unfold stripUnders at h
  rw [List.mem_reverse] at h
  have h1 := (List.dropWhile_sublist (fun c : Char => c = '_')).mem h
  rw [List.mem_reverse] at h1
  exact (List.dropWhile_sublist (fun c : Char => c = '_')).mem h1

theorem stripUnders_of_clean (l : List Char)
    (h1 : l.head? ≠ some '_') (h2 : l.getLast? ≠ some '_') :
    stripUnders l = l := by
  unfold stripUnders
  rw [dropWhile_of_head_ne l h1]
  rw [dropWhile_of_head_ne l.reverse (by rwa [List.head?_reverse])]
  exact List.reverse_reverse l

/-- Every character of a sanitized name is in `[a-z0-9_]`. -/
theorem sanitize_chars_san (s : String) :
    ∀ c ∈ (sanitize_field_name s).data, isSanChar c = true := by
  intro c hc
  have hc' : c ∈ stripUnders (collapseRuns (s.data.map lowerChar)) := hc
  exact mem_collapseRuns_san _ c (mem_stripUnders _ c hc')

/-- C3: `sanitize_field_name` is total (a Lean function) and idempotent;
its output contains only characters of the class `[a-z0-9_]` (so it matches
the pattern of lowercase letters, digits and underscores), and it has no
leading and no trailing underscore. -/
theorem c3_sanitize_idempotent_charset (s : String) :
    sanitize_field_name (sanitize_field_name s) = sanitize_field_name s
    ∧ (∀ c ∈ (sanitize_field_name s).data, isSanChar c = true)
    ∧ (sanitize_field_name s).data.head? ≠ some '_'
    ∧ (sanitize_field_name s).data.getLast? ≠ some '_' := by
  refine ⟨?_, sanitize_chars_san s, head?_stripUnders _, getLast?_stripUnders _⟩
  have hsan := sanitize_chars_san s
  have hmap : (sanitize_field_name s).data.map lowerChar = (sanitize_field_name s).data := by
    have h1 : (sanitize_field_name s).data.map lowerChar
        = (sanitize_field_name s).data.map id :=
      List.map_congr_left (fun c hc => lowerChar_of_san c (hsan c hc))
    rw [h1, List.map_id]
  show String.mk (stripUnders (collapseRuns
      ((sanitize_field_name s).data.map lowerChar))) = sanitize_field_name s
  rw [hmap, collapseRuns_of_san _ hsan]
  have hclean := stripUnders_of_clean (sanitize_field_name s).data
    (head?_stripUnders _) (getLast?_stripUnders _)
  rw [hclean]

/-- C3 witness: evaluation of the theorem at the concrete name
`"Blood Pressure(mmHg)"`, discharging the membership hypothesis of the
character-class conjunct at the character `b`. -/
theorem c3_sanitize_witness : isSanChar 'b' = true :=
  (c3_sanitize_idempotent_charset "Blood Pressure(mmHg)").2.1 'b' (by decide)

/-! ## Type Inference Engine, first variant
Embedding of `infer_data_type` from
`SPARC_merged_final_all_files_SRTAINTYingestion.py`.  A pandas series of
cells is a `List (Option String)`; `none` is an NA cell removed by
`dropna`.  `pd.to_numeric(·, errors='coerce')` is modelled by the decimal
parser `to_numeric?` (exact rationals in place of floats), and the float
comparison against the thresholds `0.8` and `0.95` by the corresponding
exact rational comparison. -/

/-- Digit character of the class `[0-9]`. -/
def isDigitCh (c : Char) : Bool := decide (48 ≤ c.toNat ∧ c.toNat ≤ 57)

/-- Numeric value of a digit string. -/
def digitsVal (l : List Char) : Nat := l.foldl (fun n c => 10 * n + (c.toNat - 48)) 0

/-- Parse an unsigned decimal literal: digits with an optional decimal
point, at least one digit overall. -/
def parseUnsignedQ? (l : List Char) : Option ℚ :=
  let ip := l.takeWhile isDigitCh
  let rest := l.dropWhile isDigitCh
  match rest with
  | [] => if ip.isEmpty then none else some ((digitsVal ip : ℚ))
  | c :: frac =>
    if c = '.' ∧ frac.all isDigitCh = true ∧ ¬ (ip.isEmpty = true ∧ frac.isEmpty = true) then
      some ((digitsVal ip : ℚ) + (digitsVal frac : ℚ) / ((10 : ℚ) ^ frac.length))
    else none

/-- Model of `pd.to_numeric(·, errors='coerce')` on one cell: surrounding
whitespace is ignored, an optional sign precedes a decimal literal;
`none` models coercion to NaN. -/
def to_numeric? (s : String) : Option ℚ :=
  match s.trim.data with
  | '-' :: rest => (parseUnsignedQ? rest).map (fun q => -q)
  | '+' :: rest => parseUnsignedQ? rest
  | l => parseUnsignedQ? l

/-- Whole-number test: model of `value % 1 == 0` on a coerced value. -/
def isWholeQ (q : ℚ) : Bool := q.den == 1

/-- Literal match of `^\d{4}-\d{2}-\d{2}$`: four digits, dash, two
digits, dash, two digits. -/
def isDateLit (s : String) : Bool :=
  match s.data with
  | [y1, y2, y3, y4, h1, m1, m2, h2, d1, d2] =>
    isDigitCh y1 && isDigitCh y2 && isDigitCh y3 && isDigitCh y4 &&
    (h1 == '-') && isDigitCh m1 && isDigitCh m2 &&
    (h2 == '-') && isDigitCh d1 && isDigitCh d2
  | _ => false

/-- The four result tags of the first inference variant. -/
inductive DType
  | integer
  | float
  | date
  | string
deriving DecidableEq

/-- `infer_data_type`: drop NA values; on an empty remainder return
STRING; if the fraction of values coercible to numeric is strictly above
0.8, return INTEGER when the fraction of coerced values that are whole is
strictly above 0.95 and FLOAT otherwise; else return DATE when every
value matches the literal date pattern, and STRING otherwise. -/
def infer_data_type (series : List (Option String)) : DType :=
  let s := series.filterMap id
  if s.length = 0 then DType.string
  else
    let numeric := s.filterMap to_numeric?
    if (numeric.length : ℚ) / (s.length : ℚ) > 0.8 then
      if ((numeric.countP isWholeQ : ℚ)) / ((numeric.length : ℚ)) > 0.95 then
        DType.integer
      else DType.float
    else if s.all isDateLit then DType.date
    else DType.string

theorem filterMap_id_map_some {α : Type} (l : List α) :
    (l.map some).filterMap id = l := by
  induction l with
  | nil => rfl
  | cons a t ih => simp only [List.map_cons, List.filterMap_cons, id, ih]

/-- The inferred type only depends on the non-NA sub-population. -/
theorem infer_data_type_congr (a b : List (Option String))
    (h : a.filterMap id = b.filterMap id) :
    infer_data_type a = infer_data_type b := by
  simp only [infer_data_type, h]

/-- C1: on a non-empty population, `infer_data_type` returns INTEGER when
the fraction of values coercing to numeric is strictly above 0.8 and the
fraction of coerced values that are whole is strictly above 0.95; FLOAT
when the numeric fraction is strictly above 0.8 but the whole fraction is
not above 0.95; and when the numeric fraction is not above 0.8 it returns
DATE exactly when every value matches the literal `YYYY-MM-DD` pattern,
and STRING otherwise. -/
theorem c1_infer_data_type_thresholds (values : List String) (hne : values ≠ []) :
    ((((values.filterMap to_numeric?).length : ℚ) / (values.length : ℚ) > 0.8 ∧
        (((values.filterMap to_numeric?).countP isWholeQ : ℚ)) /
          (((values.filterMap to_numeric?).length : ℚ)) > 0.95) →
      infer_data_type (values.map some) = DType.integer)
    ∧ ((((values.filterMap to_numeric?).length : ℚ) / (values.length : ℚ) > 0.8 ∧
        ¬ ((((values.filterMap to_numeric?).countP isWholeQ : ℚ)) /
          (((values.filterMap to_numeric?).length : ℚ)) > 0.95)) →
      infer_data_type (values.map some) = DType.float)
    ∧ (¬ (((values.filterMap to_numeric?).length : ℚ) / (values.length : ℚ) > 0.8) →
      (infer_data_type (values.map some) = DType.date ↔ ∀ v ∈ values, isDateLit v = true))
    ∧ ((¬ (((values.filterMap to_numeric?).length : ℚ) / (values.length : ℚ) > 0.8) ∧
        ¬ (∀ v ∈ values, isDateLit v = true)) →
      infer_data_type (values.map some) = DType.string) := by
  have hfm : (values.map some).filterMap id = values := filterMap_id_map_some values
  have hlen : ¬ ((values.map some).filterMap id).length = 0 := by
    rw [hfm]
    exact fun h => hne (List.length_eq_zero.mp h)
  refine ⟨?_, ?_, ?_, ?_⟩
  · rintro ⟨h1, h2⟩
    simp only [infer_data_type, hfm, if_neg (hfm ▸ hlen), if_pos h1, if_pos h2]
  · rintro ⟨h1, h2⟩
    simp only [infer_data_type, hfm, if_neg (hfm ▸ hlen), if_pos h1, if_neg h2]
  · intro h1
    simp only [infer_data_type, hfm, if_neg (hfm ▸ hlen), if_neg h1]
    by_cases hall : values.all isDateLit
    · rw [if_pos hall]
      simp only [List.all_eq_true] at hall
      exact ⟨fun _ => hall, fun _ => rfl⟩
    · rw [if_neg hall]
      simp only [List.all_eq_true] at hall
      constructor
      · intro h; exact absurd h (by simp)
      · intro h; exact absurd h hall
  · rintro ⟨h1, h2⟩
    have hall : ¬ (values.all isDateLit = true) := by
      simpa only [List.all_eq_true] using h2
    simp only [infer_data_type, hfm, if_neg (hfm ▸ hlen), if_neg h1, if_neg hall]

/-- C1 witness: the theorem applied to the population `["1","2","3"]`,
whose numeric fraction is 1 and whole fraction is 1, yields INTEGER. -/
theorem c1_infer_data_type_witness :
    infer_data_type (["1", "2", "3"].map some) = DType.integer :=
  (c1_infer_data_type_thresholds ["1", "2", "3"] (by decide)).1
    (by with_unfolding_all decide)

/-- C5: `infer_data_type` strips NA entries first, so the inferred type of
any population equals the inferred type of its non-missing sub-population
(missing entries never enter the ratio denominators), and a population
whose entries are all missing yields STRING. -/
theorem c5_infer_data_type_dropna (pop : List (Option String)) :
    infer_data_type pop = infer_data_type ((pop.filterMap id).map some)
    ∧ ((∀ v ∈ pop, v = none) → infer_data_type pop = DType.string) := by
  constructor
  · exact infer_data_type_congr pop ((pop.filterMap id).map some)
      (filterMap_id_map_some (pop.filterMap id)).symm
  · intro h
    have hnil : pop.filterMap id = [] := by
      rw [List.filterMap_eq_nil_iff]
      intro a ha
      rw [h a ha]
      rfl
    simp [infer_data_type, hnil]

/-- C5 witness: the theorem applied to the all-missing population
`[none, none]`, discharging the all-missing hypothesis by evaluation. -/
theorem c5_infer_data_type_witness :
    infer_data_type [none, none] = DType.string :=
  (c5_infer_data_type_dropna [none, none]).2 (by decide)

/-! ## Type Inference Engine, second variant
Embedding of the per-field inference inside
`get_definitions_from_long_data` of `long_ingestion_script.py`: a uniform
strict 0.9 threshold for the date check and then the numeric check, with
the integer/float decision delegated to `pandas.api.types.infer_dtype` on
the coerced series.  `pd.to_datetime(·, errors='coerce')` success is
modelled by `parsesAsDate` (ISO dates, the format produced upstream), and
`infer_dtype` returning `'integer'` by the fact that the coerced series
has an integer dtype, which happens exactly when every value of the
population is an integer literal (any parse failure or fractional literal
forces a float dtype). -/

/-- Model of `pd.to_datetime(·, errors='coerce')` succeeding on one cell:
an ISO `YYYY-MM-DD` date with a plausible month and day. -/
def parsesAsDate (s : String) : Bool :=
  match s.trim.data with
  | [y1, y2, y3, y4, h1, m1, m2, h2, d1, d2] =>
    isDigitCh y1 && isDigitCh y2 && isDigitCh y3 && isDigitCh y4 &&
    (h1 == '-') && isDigitCh m1 && isDigitCh m2 &&
    (h2 == '-') && isDigitCh d1 && isDigitCh d2 &&
    decide (1 ≤ 10 * (m1.toNat - 48) + (m2.toNat - 48)
      ∧ 10 * (m1.toNat - 48) + (m2.toNat - 48) ≤ 12
      ∧ 1 ≤ 10 * (d1.toNat - 48) + (d2.toNat - 48)
      ∧ 10 * (d1.toNat - 48) + (d2.toNat - 48) ≤ 31)
  | _ => false

/-- Integer literal: optional sign followed by at least one digit.  A
population all of whose cells are integer literals coerces to an integer
dtype, which is what makes `infer_dtype` answer `'integer'`. -/
def isIntLit (s : String) : Bool :=
  match s.trim.data with
  | '-' :: rest => !rest.isEmpty && rest.all isDigitCh
  | '+' :: rest => !rest.isEmpty && rest.all isDigitCh
  | l => !l.isEmpty && l.all isDigitCh

/-- The target type vocabulary `srt.db.models.FieldType`. -/
inductive FieldType
  | BOOLEAN
  | INT
  | FLOAT
  | DATE
  | STRING
deriving DecidableEq

/-- Per-field inference of `get_definitions_from_long_data`: drop NA
values; empty population is STRING; strictly more than 90 percent parsing
as dates gives DATE; otherwise strictly more than 90 percent parsing as
numeric gives INT or FLOAT as classified by `infer_dtype`; otherwise
STRING. -/
def infer_long_field_type (values : List (Option String)) : FieldType :=
  let vs := values.filterMap id
  if vs.isEmpty then FieldType.STRING
  else if ((vs.countP parsesAsDate : ℚ)) > 0.9 * (vs.length : ℚ) then FieldType.DATE
  else if ((vs.countP (fun v => (to_numeric? v).isSome) : ℚ)) > 0.9 * (vs.length : ℚ) then
    if vs.all isIntLit then FieldType.INT else FieldType.FLOAT
  else FieldType.STRING

/-- C4: on a non-empty population of non-null values the second variant
returns DATE exactly when strictly more than 90 percent of the values
parse as dates; otherwise INT or FLOAT (the split made by the general
type-classification utility) exactly when strictly more than 90 percent
parse as numeric; otherwise STRING; and an empty population yields
STRING. -/
theorem c4_infer_long_field_type (values : List String) (hne : values ≠ []) :
    (infer_long_field_type (values.map some) = FieldType.DATE ↔
      ((values.countP parsesAsDate : ℚ)) > 0.9 * (values.length : ℚ))
    ∧ (¬ (((values.countP parsesAsDate : ℚ)) > 0.9 * (values.length : ℚ)) →
      ((infer_long_field_type (values.map some) = FieldType.INT ∨
          infer_long_field_type (values.map some) = FieldType.FLOAT) ↔
        ((values.countP (fun v => (to_numeric? v).isSome) : ℚ)) > 0.9 * (values.length : ℚ)))
    ∧ ((¬ (((values.countP parsesAsDate : ℚ)) > 0.9 * (values.length : ℚ)) ∧
        ¬ (((values.countP (fun v => (to_numeric? v).isSome) : ℚ)) > 0.9 * (values.length : ℚ))) →
      infer_long_field_type (values.map some) = FieldType.STRING)
    ∧ infer_long_field_type [] = FieldType.STRING := by
  have hfm : (values.map some).filterMap id = values := filterMap_id_map_some values
  have hemp : ¬ (values.isEmpty = true) := by
    cases values with
    | nil => exact absurd rfl hne
    | cons a t => simp [List.isEmpty]
  refine ⟨?_, ?_, ?_, rfl⟩
  · by_cases hd : ((values.countP parsesAsDate : ℚ)) > 0.9 * (values.length : ℚ)
    · simp only [infer_long_field_type, hfm, if_neg hemp, if_pos hd]
      exact iff_of_true (by trivial) hd
    · simp only [infer_long_field_type, hfm, if_neg hemp, if_neg hd]
      constructor
      · intro h
        by_cases hn : ((values.countP (fun v => (to_numeric? v).isSome) : ℚ))
            > 0.9 * (values.length : ℚ)
        · rw [if_pos hn] at h
          by_cases hi : values.all isIntLit
          · rw [if_pos hi] at h; exact absurd h (by simp)
          · rw [if_neg hi] at h; exact absurd h (by simp)
        · rw [if_neg hn] at h; exact absurd h (by simp)
      · intro h; exact absurd h hd
  · intro hd
    simp only [infer_long_field_type, hfm, if_neg hemp, if_neg hd]
    by_cases hn : ((values.countP (fun v => (to_numeric? v).isSome) : ℚ))
        > 0.9 * (values.length : ℚ)
    · rw [if_pos hn]
      refine ⟨fun _ => hn, fun _ => ?_⟩
      by_cases hi : values.all isIntLit
      · rw [if_pos hi]; exact Or.inl rfl
      · rw [if_neg hi]; exact Or.inr rfl
    · rw [if_neg hn]
      constructor
      · intro h
        rcases h with h | h
        · exact absurd h (by simp)
        · exact absurd h (by simp)
      · intro h; exact absurd h hn
  · rintro ⟨hd, hn⟩
    simp only [infer_long_field_type, hfm, if_neg hemp, if_neg hd, if_neg hn]

/-- C4 witness: the theorem applied to the population `["a","b"]`, for
which both the date and the numeric fractions are zero, yields STRING. -/
theorem c4_infer_long_field_type_witness :
    infer_long_field_type (["a", "b"].map some) = FieldType.STRING :=
  (c4_infer_long_field_type ["a", "b"] (by decide)).2.2.1
    ⟨by with_unfolding_all decide, by with_unfolding_all decide⟩

/-! ## Wide-to-Long Reshaper
Embedding of the per-sheet body of `process_excel_to_single_long_dataframe`
from `SPARC_patients_metadata_merged_final.py`.  A wide row is its entity
key plus the cells of the non-key columns in column order (cell values are
modelled by their final string rendering; the date-to-string reformat
happens before the melt and does not change row identity).  The stages are:
canonicalize and sheet-prefix the column labels, remove exact-duplicate
rows keeping the first occurrence (`drop_duplicates`), assign the per-key
record number (`groupby(key).cumcount() + 1`), and melt column-major as
`pd.melt` does, composing the final attribute name and dropping the
record-number column. -/

/-- A row of a wide sheet: the entity key and the non-key cells. -/
structure WideRow where
  key : String
  vals : List String
deriving DecidableEq

/-- A row of the long table: entity id, attribute name, raw value.  The
record-number column is not part of the long output. -/
structure LongRow where
  pid : String
  var : String
  value : String
deriving DecidableEq

/-- ASCII model of Python `str.upper` applied to one character. -/
def upperChar (c : Char) : Char :=
  if 97 ≤ c.toNat ∧ c.toNat ≤ 122 then Char.ofNat (c.toNat - 32) else c

/-- `str.replace(' ', '_')` applied to one character. -/
def replaceSpaceChar (c : Char) : Char := if c = ' ' then '_' else c

/-- Column-label canonicalization:
`.str.strip().str.replace(' ', '_').str.upper()`. -/
def canonizeLabel (s : String) : String :=
  String.mk ((s.trim.data.map replaceSpaceChar).map upperChar)

/-- Sheet label: `sheet_name.upper().replace(' ', '_') + '_'`. -/
def sheetTag (name : String) : String :=
  String.mk ((name.data.map upperChar).map replaceSpaceChar) ++ "_"

/-- Final canonical name of a non-key column: sheet label in front of the
canonicalized column label. -/
def canonCol (sheet : String) (col : String) : String :=
  sheetTag sheet ++ canonizeLabel col

/-- Worker of the record-number assignment: `seen` holds the rows already
scanned, and each row receives one more than the number of earlier rows
with its key, exactly as `groupby(key).cumcount() + 1` does. -/
def addSeqFrom (seen : List WideRow) : List WideRow → List (WideRow × Nat)
  | [] => []
  | r :: rs =>
    (r, seen.countP (fun q => q.key == r.key) + 1) :: addSeqFrom (seen ++ [r]) rs

/-- Per-entity record numbers over a whole sheet. -/
def addSeq (rows : List WideRow) : List (WideRow × Nat) := addSeqFrom [] rows

/-- Per-sheet reshape: deduplicate, assign record numbers, then melt
column-major, composing each output attribute name as the canonical
column name, an underscore and the record number. -/
def reshapeSheet (sheet : String) (cols : List String) (rows : List WideRow) :
    List LongRow :=
  let d := keepFirst rows
  let sr := addSeq d
  (List.range cols.length).flatMap (fun j =>
    sr.map (fun p => LongRow.mk p.1.key
      (canonCol sheet (cols.getD j "") ++ "_" ++ toString p.2)
      (p.1.vals.getD j "")))

/-- The record numbers handed to the rows of one entity key enumerate
1, 2, 3, … in scan order, starting after the occurrences in `seen`. -/
theorem addSeqFrom_filter_key (k : String) :
    ∀ (l : List WideRow) (seen : List WideRow),
      ((addSeqFrom seen l).filter (fun p => p.1.key == k)).map Prod.snd
        = List.range' (seen.countP (fun q => q.key == k) + 1)
            (l.countP (fun q => q.key == k)) := by
  intro l
  induction l with
  | nil => intro seen; simp [addSeqFrom]
  | cons r rs ih =>
    intro seen
    by_cases hk : (r.key == k) = true
    · have hkeq : r.key = k := eq_of_beq hk
      simp only [addSeqFrom]
      rw [List.filter_cons_of_pos (by simpa using hk), List.map_cons, ih (seen ++ [r])]
      rw [List.countP_cons, if_pos (by simpa using hk)]
      rw [List.range'_succ]
      have hseen : (seen ++ [r]).countP (fun q => q.key == k)
          = seen.countP (fun q => q.key == k) + 1 := by
        rw [List.countP_append, List.countP_cons]
        simp [hk]
      rw [hseen, hkeq]
    · simp only [addSeqFrom]
      rw [List.filter_cons_of_neg (by simpa using hk), ih (seen ++ [r])]
      rw [List.countP_cons, if_neg (by simpa using hk)]
      have hseen : (seen ++ [r]).countP (fun q => q.key == k)
          = seen.countP (fun q => q.key == k) := by
        rw [List.countP_append, List.countP_cons]
        simp [hk]
      simp [hseen]

theorem addSeq_filter_key (k : String) (rows : List WideRow) :
    ((addSeq rows).filter (fun p => p.1.key == k)).map Prod.snd
      = List.range' 1 (rows.countP (fun q => q.key == k)) := by
  have h := addSeqFrom_filter_key k rows []
  simpa [addSeq] using h

/-- C2: in the reshaper, exact-duplicate rows are removed before the
record numbers are assigned (the output is that of the deduplicated
sheet); for every distinct entity key the surviving rows are numbered
1, 2, 3, … in original order; and every output row's attribute name is the
canonicalized sheet-prefixed column name, an underscore and that row's
record number, with no record-number field in the output rows. -/
theorem c2_reshaper_dedup_seq_names (sheet : String) (cols : List String)
    (rows : List WideRow) :
    reshapeSheet sheet cols rows = reshapeSheet sheet cols (keepFirst rows)
    ∧ (∀ k : String,
        ((addSeq (keepFirst rows)).filter (fun p => p.1.key == k)).map Prod.snd
          = List.range' 1 ((keepFirst rows).countP (fun q => q.key == k)))
    ∧ (∀ lr ∈ reshapeSheet sheet cols rows, ∃ j, j < cols.length ∧
        ∃ p ∈ addSeq (keepFirst rows),
          lr.pid = p.1.key
          ∧ lr.var = canonCol sheet (cols.getD j "") ++ "_" ++ toString p.2
          ∧ lr.value = p.1.vals.getD j "") := by
  refine ⟨?_, fun k => addSeq_filter_key k (keepFirst rows), ?_⟩
  · simp only [reshapeSheet, keepFirst_idem]
  · intro lr hlr
    simp only [reshapeSheet, List.mem_flatMap, List.mem_map, List.mem_range] at hlr
    obtain ⟨j, hj, p, hp, heq⟩ := hlr
    exact ⟨j, hj, p, hp, by rw [← heq], by rw [← heq], by rw [← heq]⟩

/-- C2 witness: the name-composition conjunct applied to the one-row,
one-column sheet `S` with key `p1` and cell `30`, discharging the output
membership hypothesis by evaluation. -/
theorem c2_reshaper_witness :
    ∃ j, j < (["AGE"] : List String).length ∧
      ∃ p ∈ addSeq (keepFirst [WideRow.mk "p1" ["30"]]),
        (LongRow.mk "p1" (canonCol "S" "AGE" ++ "_" ++ toString 1) "30").pid = p.1.key
        ∧ (LongRow.mk "p1" (canonCol "S" "AGE" ++ "_" ++ toString 1) "30").var
            = canonCol "S" (["AGE"].getD j "") ++ "_" ++ toString p.2
        ∧ (LongRow.mk "p1" (canonCol "S" "AGE" ++ "_" ++ toString 1) "30").value
            = p.1.vals.getD j "" :=
  (c2_reshaper_dedup_seq_names "S" ["AGE"] [WideRow.mk "p1" ["30"]]).2.2
    (LongRow.mk "p1" (canonCol "S" "AGE" ++ "_" ++ toString 1) "30")
    (by
      have h1 : keepFirst [WideRow.mk "p1" ["30"]] = [WideRow.mk "p1" ["30"]] := by
        rw [keepFirst_cons]
        simp [keepFirst_nil]
      simp [reshapeSheet, h1, addSeq, addSeqFrom])

/-! ## Per-workbook processing
Outer loop of `process_excel_to_single_long_dataframe`: sheets missing the
entity-key column are skipped (logged, not an error), the remaining
sheets are reshaped, and the per-sheet long tables are concatenated; when
no sheet produced output the function returns an explicitly empty table. -/

/-- The entity-key column name. -/
def KEY_COLUMN : String := "DEIDENTIFIED_MASTER_PATIENT_ID"

/-- A raw sheet of the workbook: its name, column labels and cell rows. -/
structure RawSheet where
  name : String
  header : List String
  rows : List (List String)
deriving DecidableEq

/-- Reshape a raw sheet: canonicalize the labels, split off the key
column, and run the per-sheet reshape on the non-key columns. -/
def reshapeRaw (s : RawSheet) : List LongRow :=
  let canonHeader := s.header.map canonizeLabel
  let kIdx := firstIdx canonHeader KEY_COLUMN
  let pairs := s.header.enum.filter (fun p => decide (canonizeLabel p.2 ≠ KEY_COLUMN))
  let cols := pairs.map Prod.snd
  let wideRows := s.rows.map (fun r =>
    WideRow.mk (r.getD kIdx "") (pairs.map (fun p => r.getD p.1 "")))
  reshapeSheet s.name cols wideRows

/-- One iteration of the sheet loop: a sheet whose raw header lacks the
entity-key column is skipped entirely (`none`); otherwise it contributes
its reshaped long table. -/
def processSheet (s : RawSheet) : Option (List LongRow) :=
  if KEY_COLUMN ∈ s.header then some (reshapeRaw s) else none

/-- `process_excel_to_single_long_dataframe`: process every sheet,
collect the long tables of the non-skipped sheets, and concatenate them;
with zero contributing sheets the result is the empty table. -/
def process_excel_to_single_long_dataframe (sheets : List RawSheet) : List LongRow :=
  let outs := sheets.filterMap processSheet
  if outs.isEmpty then [] else outs.flatten

theorem filterMap_processSheet_filter :
    ∀ sheets : List RawSheet,
      sheets.filterMap processSheet
        = (sheets.filter (fun t => decide (KEY_COLUMN ∈ t.header))).filterMap processSheet := by
  intro sheets
  induction sheets with
  | nil => rfl
  | cons t ts ih =>
    by_cases hk : KEY_COLUMN ∈ t.header
    · rw [List.filter_cons_of_pos (by simpa using hk)]
      rw [List.filterMap_cons, List.filterMap_cons, ih]
    · rw [List.filter_cons_of_neg (by simpa using hk)]
      rw [List.filterMap_cons]
      have hnone : processSheet t = none := by
        simp only [processSheet, if_neg hk]
      rw [hnone, ih]

/-- C8: a sheet lacking the entity-key column is skipped (it contributes
nothing, and only such sheets are skipped) while the remaining sheets are
still processed — the output over any sheet list equals the output over
its key-carrying sheets; and when every sheet lacks the key column (zero
sheets produce output) the result is the explicitly empty table, not an
error. -/
theorem c8_skip_sheets_empty_result (sheets : List RawSheet) (s : RawSheet) :
    (processSheet s = none ↔ KEY_COLUMN ∉ s.header)
    ∧ process_excel_to_single_long_dataframe sheets
        = process_excel_to_single_long_dataframe
            (sheets.filter (fun t => decide (KEY_COLUMN ∈ t.header)))
    ∧ ((∀ t ∈ sheets, KEY_COLUMN ∉ t.header) →
        process_excel_to_single_long_dataframe sheets = []) := by
  refine ⟨?_, ?_, ?_⟩
  · constructor
    · intro h hk
      simp only [processSheet, if_pos hk] at h
      exact Option.noConfusion h
    · intro h
      simp only [processSheet, if_neg h]
  · simp only [process_excel_to_single_long_dataframe]
    rw [filterMap_processSheet_filter sheets]
  · intro h
    have hnil : sheets.filterMap processSheet = [] := by
      rw [List.filterMap_eq_nil_iff]
      intro t ht
      simp only [processSheet, if_neg (h t ht)]
    simp [process_excel_to_single_long_dataframe, hnil]

/-- C8 witness: the theorem applied to a single one-column sheet lacking
the entity-key column, discharging the all-sheets-keyless hypothesis by
evaluation. -/
theorem c8_skip_sheets_witness :
    processSheet (RawSheet.mk "S" ["A"] [["1"]]) = none
    ∧ process_excel_to_single_long_dataframe [RawSheet.mk "S" ["A"] [["1"]]] = [] :=
  ⟨(c8_skip_sheets_empty_result [] (RawSheet.mk "S" ["A"] [["1"]])).1.mpr (by decide),
   (c8_skip_sheets_empty_result [RawSheet.mk "S" ["A"] [["1"]]]
      (RawSheet.mk "S" ["A"] [["1"]])).2.2 (by decide)⟩

/-! ## Schema Compiler: patient identifiers
`generate_database_tables` extracts
`combined_df[[KEY_COLUMN]].drop_duplicates().reset_index(drop=True)` —
the distinct entity keys in first-occurrence order — and
`create_srt_compliant_files` does the same on its `PatientID` column. -/

/-- The deduplicated entity-identifier list derived from a long table. -/
def patientIdentifiers (t : List LongRow) : List String :=
  keepFirst (t.map (fun r => r.pid))

/-- C7: the derived entity-identifier list has no repeated identifiers,
contains an identifier exactly when it appears as an entity key of the
input, and lists identifiers in first-occurrence order of the input
rows. -/
theorem c7_patient_identifiers (t : List LongRow) :
    (patientIdentifiers t).Nodup
    ∧ (∀ x, x ∈ patientIdentifiers t ↔ x ∈ t.map (fun r => r.pid))
    ∧ (patientIdentifiers t).Pairwise (fun a b =>
        firstIdx (t.map (fun r => r.pid)) a < firstIdx (t.map (fun r => r.pid)) b) :=
  ⟨nodup_keepFirst _,
   fun x => mem_keepFirst_iff _ x,
   keepFirst_pairwise_firstIdx _⟩

/-- C7 witness: the theorem applied to a two-row table with a repeated
key, discharging the membership hypothesis of the completeness conjunct
by evaluation. -/
theorem c7_patient_identifiers_witness :
    "p" ∈ patientIdentifiers [LongRow.mk "p" "v" "1", LongRow.mk "p" "w" "2"] :=
  ((c7_patient_identifiers [LongRow.mk "p" "v" "1", LongRow.mk "p" "w" "2"]).2.1 "p").mpr
    (by decide)

/-! ## Value Filter and Compliance Mapper
`create_srt_compliant_files` loads the field-values table with
`na_values=['NA', 'N/A', '', ' ']` and `keep_default_na=True`, drops the
rows whose `FieldValue` loaded as NaN, sanitizes the field names and
keeps `(PatientID, FieldName, FieldValue)`.  The configured token set is
therefore the pandas default NA tokens together with the single-space
string. -/

/-- The strings recognized as NA while loading the field-values table:
the pandas `read_csv` default NA tokens plus the configured extra
`' '` (the tokens `'NA'`, `'N/A'` and `''` are already defaults). -/
def naTokens : List String :=
  ["", "#N/A", "#N/A N/A", "#NA", "-1.#IND", "-1.#QNAN", "-NaN", "-nan",
   "1.#IND", "1.#QNAN", "<NA>", "N/A", "NA", "NULL", "NaN", "None", "n/a",
   "nan", "null", " "]

/-- Loading one `FieldValue` cell: a token of the NA set becomes NaN. -/
def parseCell (v : String) : Option String :=
  if v ∈ naTokens then none else some v

/-- A loaded row of the field-values table. -/
structure FVRow where
  pid : String
  fieldName : String
  value : Option String
deriving DecidableEq

/-- Loading the raw `(PatientID, FieldName, FieldValue)` records with the
NA policy applied to the value column. -/
def load_field_values (raw : List (String × String × String)) : List FVRow :=
  raw.map (fun t => FVRow.mk t.1 t.2.1 (parseCell t.2.2))

/-- The compliant field-values table: drop the rows whose value is NaN,
sanitize the field name, keep `(PatientID, FieldName, FieldValue)`. -/
def fieldValuesCompliant (rows : List FVRow) : List LongRow :=
  rows.filterMap (fun r =>
    r.value.map (fun v => LongRow.mk r.pid (sanitize_field_name r.fieldName) v))

/-- C6 counterexample: the claim that the compliant output never contains
a value of the set null/NaN, `NA`, `N/A`, empty, or whitespace-only fails
at the input row `("p1", "Name", "  ")` — the two-space value is
whitespace-only but is not a configured NA token, so its row survives. -/
theorem c6_claim_counterexample :
    ¬ (∀ out ∈ fieldValuesCompliant (load_field_values [("p1", "Name", "  ")]),
        ¬ (out.value = "NA" ∨ out.value = "N/A" ∨ out.value.trim = "")) := by
  with_unfolding_all decide

theorem parseCell_eq_some (x v : String) (h : parseCell x = some v) : v ∉ naTokens := by
  unfold parseCell at h
  by_cases hx : x ∈ naTokens
  · rw [if_pos hx] at h
    exact Option.noConfusion h
  · rw [if_neg hx] at h
    exact (Option.some.injEq x v ▸ h) ▸ hx

/-- C6 amended: for any input long table, the compliant field-values
output never contains a row whose value is one of the configured NA
tokens (the pandas default tokens — among them `NA`, `N/A`, the empty
string, NaN spellings — plus the single-space string); whitespace-only
values other than one single space are not in the configured set and are
retained. -/
theorem c6_filter_na_tokens (raw : List (String × String × String)) :
    ∀ out ∈ fieldValuesCompliant (load_field_values raw), out.value ∉ naTokens := by
  intro out hout
  simp only [fieldValuesCompliant, load_field_values, List.filterMap_map] at hout
  rcases List.mem_filterMap.mp hout with ⟨t, _, ht⟩
  simp only [Function.comp] at ht
  cases hpc : parseCell t.2.2 with
  | none => rw [hpc] at ht; exact Option.noConfusion ht
  | some v =>
    rw [hpc] at ht
    have hgv : LongRow.mk t.1 (sanitize_field_name t.2.1) v = out := Option.some.inj ht
    rw [← hgv]
    exact parseCell_eq_some t.2.2 v hpc

/-- C6 witness: the amended theorem applied to a single surviving row,
discharging the output-membership hypothesis by evaluation. -/
theorem c6_filter_na_tokens_witness :
    (LongRow.mk "p" "f" "7").value ∉ naTokens :=
  c6_filter_na_tokens [("p", "f", "7")] (LongRow.mk "p" "f" "7") (by decide)

/-! ## Ingestion Adapter: batch partitioning
Embedding of the batch loop of `ingest_long_dataframe`:
`for start_idx in range(0, len(all_field_values), batch_size)` submits
the slice `all_field_values[start_idx : start_idx + batch_size]` on each
iteration; `makeBatches` collects the submitted slices in order. -/

/-- The sequence of batches submitted by the ingestion loop, in
submission order. -/
def makeBatches {α : Type} : List α → Nat → List (List α)
  | l, b =>
    if h : l.isEmpty = true ∨ b = 0 then []
    else l.take b :: makeBatches (l.drop b) b
termination_by l b => l.length
decreasing_by
  rw [List.length_drop]
  rcases not_or.mp h with ⟨hl, hb⟩
  exact Nat.sub_lt (List.length_pos.mpr (by simpa using hl)) (Nat.pos_of_ne_zero hb)

theorem makeBatches_nil {α : Type} (b : Nat) : makeBatches ([] : List α) b = [] := by
  rw [makeBatches]
  simp

theorem makeBatches_step {α : Type} (l : List α) (b : Nat) (hl : l ≠ []) (hb : b ≠ 0) :
    makeBatches l b = l.take b :: makeBatches (l.drop b) b := by
  rw [makeBatches]
  rw [dif_neg (not_or.mpr ⟨by simpa using hl, hb⟩)]

theorem makeBatches_spec {α : Type} (b : Nat) (hb : b ≠ 0) :
    ∀ (n : Nat) (l : List α), l.length ≤ n →
      (makeBatches l b).length = (l.length + b - 1) / b
      ∧ (makeBatches l b).flatten = l
      ∧ (∀ batch ∈ (makeBatches l b).dropLast, batch.length = b)
      ∧ (∀ batch ∈ makeBatches l b, 0 < batch.length ∧ batch.length ≤ b) := by
  intro n
  induction n with
  | zero =>
    intro l hl
    have h0 : l = [] := List.eq_nil_of_length_eq_zero (Nat.le_zero.mp hl)
    subst h0
    rw [makeBatches_nil]
    refine ⟨?_, rfl, by intro batch h; exact absurd h (List.not_mem_nil batch), ?_⟩
    · have : (0 + b - 1) / b = 0 := Nat.div_eq_of_lt (by omega)
      simpa using this.symm
    · intro batch h; exact absurd h (List.not_mem_nil batch)
  | succ n ih =>
    intro l hl
    by_cases hln : l = []
    · subst hln
      rw [makeBatches_nil]
      refine ⟨?_, rfl, by intro batch h; exact absurd h (List.not_mem_nil batch), ?_⟩
      · have : (0 + b - 1) / b = 0 := Nat.div_eq_of_lt (by omega)
        simpa using this.symm
      · intro batch h; exact absurd h (List.not_mem_nil batch)
    · have hm : 0 < l.length := List.length_pos.mpr hln
      have hdl : (l.drop b).length ≤ n := by
        rw [List.length_drop]
        omega
      obtain ⟨ih1, ih2, ih3, ih4⟩ := ih (l.drop b) hdl
      rw [makeBatches_step l b hln hb]
      refine ⟨?_, ?_, ?_, ?_⟩
      · rw [List.length_cons, ih1, List.length_drop]
        by_cases hbm : b ≤ l.length
        · have he1 : l.length - b + b - 1 = l.length - 1 := by omega
          have he2 : l.length + b - 1 = (l.length - 1) + b := by omega
          rw [he1, he2, Nat.add_div_right _ (Nat.pos_of_ne_zero hb)]
        · have he1 : l.length - b = 0 := by omega
          have he2 : (0 + b - 1) / b = 0 := Nat.div_eq_of_lt (by omega)
          rw [he1, he2]
          have := Nat.div_eq_of_lt_le (by omega : 1 * b ≤ l.length + b - 1)
            (by omega : l.length + b - 1 < (1 + 1) * b)
          omega
      · rw [List.flatten_cons, ih2]
        exact List.take_append_drop b l
      · by_cases hd : l.drop b = []
        · rw [hd, makeBatches_nil, List.dropLast_single]
          intro batch h
          exact absurd h (List.not_mem_nil batch)
        · have hne : makeBatches (l.drop b) b ≠ [] := by
            rw [makeBatches_step _ _ hd hb]
            exact List.cons_ne_nil _ _
          rw [List.dropLast_cons_of_ne_nil hne]
          intro batch hbatch
          rcases List.mem_cons.mp hbatch with h | h
          · have hblt : b < l.length := by
              have := List.length_pos.mpr hd
              rw [List.length_drop] at this
              omega
            rw [h, List.length_take]
            omega
          · exact ih3 batch h
      · intro batch hbatch
        rcases List.mem_cons.mp hbatch with h | h
        · rw [h, List.length_take]
          constructor <;> omega
        · exact ih4 batch h

/-- The concrete 12000-record, 5000-batch instance: three batches of
sizes 5000, 5000, 2000, in submission order. -/
theorem makeBatches_12000_5000 :
    (makeBatches (List.range 12000) 5000).map List.length = [5000, 5000, 2000] := by
  have h1 : (List.range 12000) ≠ [] :=
    List.ne_nil_of_length_pos (by rw [List.length_range]; omega)
  have h2 : ((List.range 12000).drop 5000) ≠ [] :=
    List.ne_nil_of_length_pos (by rw [List.length_drop, List.length_range]; omega)
  have h3 : (((List.range 12000).drop 5000).drop 5000) ≠ [] :=
    List.ne_nil_of_length_pos
      (by rw [List.length_drop, List.length_drop, List.length_range]; omega)
  have h4 : ((((List.range 12000).drop 5000).drop 5000).drop 5000) = [] :=
    List.eq_nil_of_length_eq_zero
      (by rw [List.length_drop, List.length_drop, List.length_drop, List.length_range])
  rw [makeBatches_step _ _ h1 (by omega), makeBatches_step _ _ h2 (by omega),
    makeBatches_step _ _ h3 (by omega), h4, makeBatches_nil]
  simp only [List.map_cons, List.map_nil, List.length_take, List.length_drop,
    List.length_range]
  norm_num

/-- C9: for every record list and batch size strictly above zero, the
ingestion loop submits exactly the ceiling of `n / b` batches in order,
each of size `b` except a possibly smaller non-empty final batch, with
the concatenation of the batches equal to the original list (every record
once, in original order); in particular 12000 records at batch size 5000
give exactly the batch sizes 5000, 5000, 2000 in order. -/
theorem c9_batch_partition {α : Type} (l : List α) (b : Nat) (hb : 0 < b) :
    (makeBatches l b).length = (l.length + b - 1) / b
    ∧ (makeBatches l b).flatten = l
    ∧ (∀ batch ∈ (makeBatches l b).dropLast, batch.length = b)
    ∧ (∀ batch ∈ makeBatches l b, 0 < batch.length ∧ batch.length ≤ b)
    ∧ (makeBatches (List.range 12000) 5000).map List.length = [5000, 5000, 2000] := by
  obtain ⟨h1, h2, h3, h4⟩ :=
    makeBatches_spec b (Nat.pos_iff_ne_zero.mp hb) l.length l (Nat.le_refl _)
  exact ⟨h1, h2, h3, h4, makeBatches_12000_5000⟩

/-- C9 witness: the theorem applied to a three-record list at batch size
two, discharging the positive-batch-size hypothesis by evaluation. -/
theorem c9_batch_partition_witness :
    (makeBatches ["a", "b", "c"] 2).flatten = ["a", "b", "c"] :=
  (c9_batch_partition ["a", "b", "c"] 2 (by decide)).2.1

/-! ## Add-source-column step
Embedding of `add_source_column` from
`Field_Values_SRT_Compliant_Source.py`: load the compliant field values
(`keep_default_na=False`, so cells are taken verbatim), add a constant
`source` column, reorder to `['PatientID', 'FieldName', 'FieldValue',
column_name]`, and write the result. -/

/-- The configured name of the new column. -/
def SOURCE_COLUMN_NAME : String := "source"

/-- The configured constant tag value. -/
def SOURCE_VALUE : String := "IBD_Plexus"

/-- A loaded CSV table: header labels and cell rows. -/
structure DataFrame where
  header : List String
  rows : List (List String)
deriving DecidableEq

/-- Column selection `df[cols]`: reorder the table to the named columns,
each cell looked up by the column's position in the header. -/
def selectCols (df : DataFrame) (cols : List String) : DataFrame :=
  DataFrame.mk cols
    (df.rows.map (fun r => cols.map (fun c => r.getD (firstIdx df.header c) "")))

/-- `add_source_column`: append the constant column, then reorder to
`['PatientID', 'FieldName', 'FieldValue', column_name]`. -/
def add_source_column (df : DataFrame) (columnName : String) (sourceValue : String) :
    DataFrame :=
  let df2 := DataFrame.mk (df.header ++ [columnName])
    (df.rows.map (fun r => r ++ [sourceValue]))
  selectCols df2 ["PatientID", "FieldName", "FieldValue", columnName]

/-- C10: on an input table with exactly the columns PatientID, FieldName,
FieldValue, the add-source step outputs the columns PatientID, FieldName,
FieldValue, source in that order; every row keeps its three entries
unchanged and gains the configured constant as its source entry; and the
row count is unchanged. -/
theorem c10_add_source_column (df : DataFrame)
    (h1 : df.header = ["PatientID", "FieldName", "FieldValue"])
    (h2 : ∀ r ∈ df.rows, r.length = 3) :
    (add_source_column df SOURCE_COLUMN_NAME SOURCE_VALUE).header
      = ["PatientID", "FieldName", "FieldValue", "source"]
    ∧ (add_source_column df SOURCE_COLUMN_NAME SOURCE_VALUE).rows
      = df.rows.map (fun r => r ++ [SOURCE_VALUE])
    ∧ (add_source_column df SOURCE_COLUMN_NAME SOURCE_VALUE).rows.length
      = df.rows.length := by
  have hrows : (add_source_column df SOURCE_COLUMN_NAME SOURCE_VALUE).rows
      = df.rows.map (fun r => r ++ [SOURCE_VALUE]) := by
    simp only [add_source_column, selectCols, List.map_map]
    apply List.map_congr_left
    intro r hr
    obtain ⟨a, b, c, habc⟩ := List.length_eq_three.mp (h2 r hr)
    subst habc
    rw [h1]
    rfl
  exact ⟨rfl, hrows, by rw [hrows, List.length_map]⟩

/-- C10 witness: the theorem applied to a one-row table, discharging the
header and row-shape hypotheses by evaluation. -/
theorem c10_add_source_column_witness :
    (add_source_column
        (DataFrame.mk ["PatientID", "FieldName", "FieldValue"] [["p", "f", "v"]])
        SOURCE_COLUMN_NAME SOURCE_VALUE).rows
      = [["p", "f", "v"]].map (fun r => r ++ [SOURCE_VALUE]) :=
  (c10_add_source_column
      (DataFrame.mk ["PatientID", "FieldName", "FieldValue"] [["p", "f", "v"]])
      rfl (by decide)).2.1

end IBD
